import Mathlib

/-
Verification of the flag evaluation engine of feature-flag-manager.

The engine lives in src/backend/src/models/evaluation.model.js
(flagSchema.methods.evaluate, flagSchema.methods.evaluateRule,
flagSchema.methods.getDefaultValue) and
src/backend/src/services/evaluation.service.js (evaluateAllFlags).

The JavaScript code is shallowly embedded: Mixed (JSON-like) runtime
values become the inductive JSVal; JS objects used as maps become
association lists; machine arithmetic on 32-bit signed integers is
modelled on Int with explicit reduction modulo 2^32; the wall clock
read by SCHEDULED rules becomes an explicit `now` parameter; a thrown
Error becomes an Except error value.
-/

namespace FlagEval

/-- Runtime values handled by the engine: Mongoose `Mixed` payloads are
booleans, numbers, strings or null (flag values, rule payloads, context
attributes).  Numbers are modelled as integers. -/
inductive JSVal where
  | vBool : Bool → JSVal
  | vNum : Int → JSVal
  | vStr : String → JSVal
  | vNull : JSVal
deriving DecidableEq, Repr

/-- JavaScript truthiness of a JSVal, as used by the code's
`!context[key]` test and the `context.userId || ''` fallback:
false, 0, the empty string and null are falsy. -/
def jsTruthy : JSVal → Bool
  | .vBool b => b
  | .vNum n => n != 0
  | .vStr s => s != ""
  | .vNull => false

/-- JavaScript strict equality (===) restricted to the primitive values
of JSVal: equal only when the type tags agree and the payloads are
equal (DecidableEq of JSVal gives exactly this). -/
def jsEq (a b : JSVal) : Bool := a == b

/-- JavaScript string coercion used by `userId + this.key` when the
stored userId is a truthy non-string. -/
def jsToString : JSVal → String
  | .vBool b => if b then "true" else "false"
  | .vNum n => toString n
  | .vStr s => s
  | .vNull => "null"

/-- Evaluation context: a JS object, i.e. an association list from
attribute names to values (first binding wins, as JS keys are unique). -/
def Context := List (String × JSVal)

/-- Reading `context[key]`: none models `undefined` (absent key). -/
def ctxGet (ctx : Context) (k : String) : Option JSVal :=
  (List.find? (fun p => p.1 == k) ctx).map (fun p => p.2)

/-- The code's `const userId = context.userId || '';` followed by string
concatenation: a truthy stored userId is coerced to a string, anything
falsy or absent becomes the empty string. -/
def jsUserId (ctx : Context) : String :=
  match ctxGet ctx "userId" with
  | some v => if jsTruthy v then jsToString v else ""
  | none => ""

/-- UTF-16 code units of a string as read by `str.charCodeAt(i)`.
Characters are mapped to their code points, which coincides with the
code unit for all characters in the basic multilingual plane; the
bucketing theorems below are stated over arbitrary code-unit lists. -/
def codeUnits (s : String) : List Nat := s.data.map Char.toNat

/-- ECMAScript ToInt32: reduce an integer modulo 2^32 into the signed
range, exactly the effect of `hash = hash & hash` and of the `<<`
operator in the code. -/
def toInt32 (x : Int) : Int := (x + 2 ^ 31) % 2 ^ 32 - 2 ^ 31

/-- One step of the hash loop in the PERCENTAGE branch of evaluateRule:
`hash = ((hash << 5) - hash) + str.charCodeAt(i); hash = hash & hash;`.
The shift coerces to a signed 32-bit integer, the subtraction and
addition are exact (double precision suffices for these magnitudes),
and the final masking coerces to a signed 32-bit integer again. -/
def jsHashStep (h : Int) (c : Nat) : Int :=
  toInt32 (toInt32 (h * 32) - h + (c : Int))

/-- The full hash loop of the PERCENTAGE branch over the code units of
the seed string, starting from `let hash = 0`. -/
def jsHash (l : List Nat) : Int := l.foldl jsHashStep 0

/-- The code's `const normalizedHash = Math.abs(hash % 100)`:
JavaScript % is the truncated remainder (sign of the dividend), i.e.
Int.tmod, and Math.abs is Int.natAbs. -/
def jsBucket (l : List Nat) : Nat := (Int.tmod (jsHash l) 100).natAbs

/-- Modelled from the spec, section 4.1 (reference algorithm for the
Bucketing Function): interpretation of a residue modulo 2^32 as a
signed 32-bit two's-complement quantity. -/
def specWrap32 (x : Int) : Int :=
  if x % 2 ^ 32 < 2 ^ 31 then x % 2 ^ 32 else x % 2 ^ 32 - 2 ^ 32

/-- Modelled from the spec, section 4.1: the recurrence
`h = (h*31 + codeUnit) mod 2^32` interpreted as signed 32-bit. -/
def specHash (l : List Nat) : Int :=
  l.foldl (fun (h : Int) (c : Nat) => specWrap32 (h * 31 + (c : Int))) 0

/-- Modelled from the spec, section 4.1: `abs(h) mod 100`. -/
def specBucket (l : List Nat) : Nat := (specHash l).natAbs % 100

/-- Type-dependent rule payload (ruleSchema's `type` enum together with
its `value`, whose shape the schema validator ties to the type):
percentage threshold, segment attribute conditions, scheduled window
(start timestamp and optional end timestamp), or a default payload. -/
inductive RuleValue where
  | percentage : Int → RuleValue
  | userSegment : List (String × JSVal) → RuleValue
  | scheduled : Int → Option Int → RuleValue
  | defaultRule : JSVal → RuleValue
deriving DecidableEq, Repr

/-- A targeting rule (ruleSchema): an optional display name, a priority
(non-negative, default 0) and the typed payload. -/
structure Rule where
  name : Option String := none
  priority : Nat := 0
  value : RuleValue
deriving DecidableEq, Repr

/-- A variation of a multivariate flag (variationSchema). -/
structure Variation where
  key : String
  value : JSVal
  description : Option String := none
deriving DecidableEq, Repr

/-- Per-environment settings of a flag (the `of`-schema of the
`environments` map): enabled switch, rules, the simple value used for
boolean flags, variations and the default variation reference. -/
structure EnvSettings where
  enabled : Bool := false
  rules : List Rule := []
  value : Option JSVal := none
  variations : List Variation := []
  defaultVariation : Option String := none
deriving DecidableEq, Repr

/-- Flag value types (flagSchema's `type` enum). -/
inductive FlagType where
  | BOOLEAN
  | STRING
  | NUMBER
  | JSON
deriving DecidableEq, Repr

/-- Evaluation metrics stored on a flag (flagSchema's `metrics`):
an evaluation counter and the last evaluation timestamp.  Kept in the
model so that independence of evaluation from this hidden state is a
meaningful statement. -/
structure Metrics where
  evaluations : Nat := 0
  lastEvaluated : Option Int := none
deriving DecidableEq, Repr

/-- A feature flag (flagSchema): key, display name, type, the map from
environment name to settings (an association list, first binding wins)
and the metrics. -/
structure Flag where
  key : String
  name : String := ""
  type : FlagType := .BOOLEAN
  environments : List (String × EnvSettings) := []
  metrics : Metrics := {}
deriving DecidableEq, Repr

/-- Lookup in the environments map: `this.environments.get(e)`, with
isSome playing the role of `this.environments.has(e)`. -/
def envLookup (envs : List (String × EnvSettings)) (environment : String) :
    Option EnvSettings :=
  (List.find? (fun p => p.1 == environment) envs).map (fun p => p.2)

/-- Evaluation errors thrown by the engine: the only one is the
`Environment '...' not found for flag '...'` Error of evaluate,
carrying the environment name and the flag key. -/
inductive EvalError where
  | environmentNotFound : String → String → EvalError
deriving DecidableEq, Repr

/-- Result shape of evaluateRule: `{ matches, value }`. -/
structure RuleResult where
  matched : Bool
  value : JSVal
deriving DecidableEq, Repr

/-- The USER_SEGMENT loop of evaluateRule: for each entry of the rule's
value object, `if (!context[key] || context[key] !== value)` clears the
match; so the rule matches exactly when every required attribute is
present, truthy and strictly equal to the required value. -/
def segmentMatches (entries : List (String × JSVal)) (ctx : Context) : Bool :=
  entries.all (fun e =>
    match ctxGet ctx e.1 with
    | none => false
    | some cv => jsTruthy cv && jsEq cv e.2)

/-- flagSchema.methods.evaluateRule, with the flag's key and the wall
clock `new Date()` passed explicitly.  PERCENTAGE hashes
`userId + this.key` and matches when the bucket is strictly below the
threshold; USER_SEGMENT checks every attribute condition; SCHEDULED
compares `now` with the window; DEFAULT always matches with the rule's
own payload. -/
def evaluateRule (flagKey : String) (rule : Rule) (ctx : Context)
    (now : Int) : RuleResult :=
  match rule.value with
  | .percentage p =>
      let str := jsUserId ctx ++ flagKey
      let normalizedHash := jsBucket (codeUnits str)
      { matched := decide ((normalizedHash : Int) < p), value := .vBool true }
  | .userSegment entries =>
      { matched := segmentMatches entries ctx, value := .vBool true }
  | .scheduled startDate endDate =>
      let isAfterStart := decide (startDate ≤ now)
      let isBeforeEnd := match endDate with
        | some e => decide (now ≤ e)
        | none => true
      { matched := isAfterStart && isBeforeEnd, value := .vBool true }
  | .defaultRule v => { matched := true, value := v }

/-- Stable insertion of a rule into a list sorted by descending
priority: the rule moves past exactly the rules of strictly greater
priority, so among equal priorities earlier rules stay first.  This is
the unique behaviour of the code's
`[...rules].sort((a, b) => b.priority - a.priority)` since ECMAScript
Array.prototype.sort is stable. -/
def insertRule (a : Rule) : List Rule → List Rule
  | [] => [a]
  | b :: rest =>
      if b.priority ≤ a.priority then a :: b :: rest
      else b :: insertRule a rest

/-- Stable sort of the rules by descending priority (the code's
`sortedRules`). -/
def sortRules : List Rule → List Rule
  | [] => []
  | a :: rest => insertRule a (sortRules rest)

/-- The rule scan of evaluate: apply evaluateRule in order and return
the first matching rule's value. -/
def findFirstMatch (flagKey : String) (ctx : Context) (now : Int) :
    List Rule → Option JSVal
  | [] => none
  | rule :: rest =>
      let result := evaluateRule flagKey rule ctx now
      if result.matched then some result.value
      else findFirstMatch flagKey ctx now rest

/-- flagSchema.methods.getDefaultValue, taking the flag's type and the
environment settings (the method reads them from `this` and the
environments map; evaluate only calls it for an environment it has
already found).  BOOLEAN flags use `value` with fallback false;
multivariate flags with variations resolve
`defaultVariation || variations[0].key` (JS ||: an absent or empty
string falls back to the first variation's key) via find, yielding null
when no variation carries the resolved key; without variations, `value`
with fallback null. -/
def getDefaultValue (t : FlagType) (es : EnvSettings) : JSVal :=
  if t = .BOOLEAN then
    es.value.getD (.vBool false)
  else
    match es.variations with
    | [] => es.value.getD .vNull
    | v0 :: _ =>
        let defaultKey := match es.defaultVariation with
          | some k => if k = "" then v0.key else k
          | none => v0.key
        match es.variations.find? (fun v => v.key == defaultKey) with
        | some variation => variation.value
        | none => .vNull

/-- flagSchema.methods.evaluate with the wall clock passed explicitly:
fail when the environment is missing; return the default value when the
environment is disabled or has no rules; otherwise scan the rules
sorted by descending priority and return the first match's value, or
the default value when none matches. -/
def Flag.evaluate (f : Flag) (environment : String) (ctx : Context)
    (now : Int) : Except EvalError JSVal :=
  match envLookup f.environments environment with
  | none => .error (.environmentNotFound environment f.key)
  | some envSettings =>
      if !envSettings.enabled then
        .ok (getDefaultValue f.type envSettings)
      else if envSettings.rules.isEmpty then
        .ok (getDefaultValue f.type envSettings)
      else
        match findFirstMatch f.key ctx now (sortRules envSettings.rules) with
        | some v => .ok v
        | none => .ok (getDefaultValue f.type envSettings)

/-- evaluateAllFlags of evaluation.service.js: evaluate every flag of
the project, collect the successes into the results object and skip the
flags whose evaluation throws. -/
def evaluateAllFlags (flags : List Flag) (environment : String)
    (ctx : Context) (now : Int) : List (String × JSVal) :=
  flags.foldl (fun results flag =>
    match flag.evaluate environment ctx now with
    | .ok v => results ++ [(flag.key, v)]
    | .error _ => results) []

/-- Lookup in the results object of evaluateAllFlags. -/
def resultsGet (results : List (String × JSVal)) (k : String) :
    Option JSVal :=
  (List.find? (fun p => p.1 == k) results).map (fun p => p.2)

/-! Bucketing lemmas -/

theorem specWrap32_eq_toInt32 (x : Int) : specWrap32 x = toInt32 x := by
  unfold specWrap32 toInt32
  split <;> omega

theorem jsHashStep_eq (h : Int) (c : Nat) :
    jsHashStep h c = specWrap32 (h * 31 + (c : Int)) := by
  rw [specWrap32_eq_toInt32]
  unfold jsHashStep toInt32
  omega

theorem jsHash_eq_specHash (l : List Nat) : jsHash l = specHash l := by
  unfold jsHash specHash
  have hstep : jsHashStep = fun (h : Int) (c : Nat) => specWrap32 (h * 31 + (c : Int)) :=
    funext fun h => funext fun c => jsHashStep_eq h c
  rw [hstep]

theorem natAbs_tmod_hundred (n : Int) :
    (Int.tmod n 100).natAbs = n.natAbs % 100 := by
  rcases n with m | m <;> simp [Int.tmod] <;> omega

/-- C2: the bucketing computation of the PERCENTAGE branch (the shift
hash coerced to a signed 32-bit integer at each step, then the absolute
value of the truncated remainder by 100) computes, on every code-unit
list, the same hash and the same bucket as the spec's reference
algorithm (h = (h*31 + codeUnit) mod 2^32 as signed two's-complement,
then abs(h) mod 100), and the bucket is an integer in [0,100). -/
theorem bucket_refines_spec (l : List Nat) :
    jsHash l = specHash l ∧ jsBucket l = specBucket l ∧ jsBucket l < 100 := by
  refine ⟨jsHash_eq_specHash l, ?_, ?_⟩
  · unfold jsBucket specBucket
    rw [jsHash_eq_specHash, natAbs_tmod_hundred]
  · unfold jsBucket
    rw [natAbs_tmod_hundred]
    omega

/-- C3: a PERCENTAGE rule with threshold p matches exactly when the
bucket of the seed (the context's userId, with the empty string
standing in for an absent userId, concatenated with the flag's key) is
strictly below p, and its emitted value is the boolean true; at the
boundary, bucket 49 matches threshold 50 and bucket 50 does not
(witnessed by the seeds "bc" ++ "f" and "l" ++ "f"). -/
theorem percentage_rule_matches (p : Int) (nm : Option String)
    (prio : Nat) (ctx : Context) (flagKey : String) (now : Int) :
    (∀ u, ctxGet ctx "userId" = some (.vStr u) →
      ((evaluateRule flagKey { name := nm, priority := prio, value := .percentage p }
          ctx now).matched = true ↔
        (jsBucket (codeUnits (u ++ flagKey)) : Int) < p))
    ∧ (ctxGet ctx "userId" = none →
      ((evaluateRule flagKey { name := nm, priority := prio, value := .percentage p }
          ctx now).matched = true ↔
        (jsBucket (codeUnits ("" ++ flagKey)) : Int) < p))
    ∧ (evaluateRule flagKey { name := nm, priority := prio, value := .percentage p }
        ctx now).value = .vBool true
    ∧ jsBucket (codeUnits ("bc" ++ "f")) = 49
    ∧ jsBucket (codeUnits ("l" ++ "f")) = 50
    ∧ (evaluateRule "f" { name := none, priority := 0, value := .percentage 50 }
        [("userId", .vStr "bc")] 0).matched = true
    ∧ (evaluateRule "f" { name := none, priority := 0, value := .percentage 50 }
        [("userId", .vStr "l")] 0).matched = false := by
  refine ⟨?_, ?_, rfl, by decide, by decide, by decide, by decide⟩
  · intro u hu
    have huser : jsUserId ctx = u := by
      unfold jsUserId
      rw [hu]
      by_cases hne : u = ""
      · subst hne; simp [jsTruthy, jsToString]
      · simp [jsTruthy, jsToString, hne]
    simp only [evaluateRule, huser, decide_eq_true_eq]
  · intro hu
    have huser : jsUserId ctx = "" := by
      unfold jsUserId
      rw [hu]
    simp only [evaluateRule, huser, decide_eq_true_eq]

/-- Witness for percentage_rule_matches: at the concrete context
{userId: "bc"} and flag key "f" with threshold 50, the stored userId is
a string and the rule matches since the bucket of "bcf" is 49. -/
theorem percentage_rule_matches_witness :
    ctxGet [("userId", JSVal.vStr "bc")] "userId" = some (.vStr "bc")
    ∧ ((evaluateRule "f" { name := none, priority := 0, value := .percentage 50 }
        [("userId", JSVal.vStr "bc")] 0).matched = true ↔
      (jsBucket (codeUnits ("bc" ++ "f")) : Int) < 50) :=
  ⟨by decide,
   (percentage_rule_matches 50 none 0 [("userId", JSVal.vStr "bc")] "f" 0).1
     "bc" (by decide)⟩

/-! Lemmas about the stable priority sort -/

theorem insertRule_perm (a : Rule) (l : List Rule) :
    (insertRule a l).Perm (a :: l) := by
  induction l with
  | nil => exact List.Perm.refl _
  | cons b rest ih =>
      unfold insertRule
      split
      · exact List.Perm.refl _
      · exact (ih.cons b).trans (List.Perm.swap a b rest)

theorem sortRules_perm (l : List Rule) : (sortRules l).Perm l := by
  induction l with
  | nil => exact List.Perm.refl _
  | cons a rest ih =>
      unfold sortRules
      exact (insertRule_perm a (sortRules rest)).trans (ih.cons a)

theorem mem_insertRule {x a : Rule} {l : List Rule} :
    x ∈ insertRule a l ↔ x = a ∨ x ∈ l := by
  rw [(insertRule_perm a l).mem_iff, List.mem_cons]

theorem insertRule_sorted {a : Rule} {l : List Rule}
    (h : l.Pairwise (fun x y => y.priority ≤ x.priority)) :
    (insertRule a l).Pairwise (fun x y => y.priority ≤ x.priority) := by
  induction l with
  | nil => simp [insertRule]
  | cons b rest ih =>
      rw [List.pairwise_cons] at h
      obtain ⟨hb, hrest⟩ := h
      unfold insertRule
      split
      · rename_i hba
        refine List.Pairwise.cons ?_ (List.Pairwise.cons hb hrest)
        intro x hx
        rcases List.mem_cons.mp hx with hx | hx
        · exact hx ▸ hba
        · exact le_trans (hb x hx) hba
      · rename_i hba
        refine List.Pairwise.cons ?_ (ih hrest)
        intro x hx
        rcases mem_insertRule.mp hx with hx | hx
        · exact hx ▸ le_of_lt (lt_of_not_le hba)
        · exact hb x hx

theorem sortRules_sorted (l : List Rule) :
    (sortRules l).Pairwise (fun x y => y.priority ≤ x.priority) := by
  induction l with
  | nil => simp [sortRules]
  | cons a rest ih => exact insertRule_sorted ih

theorem insertRule_filter (a : Rule) (l : List Rule) (p : Nat) :
    (insertRule a l).filter (fun r => r.priority == p) =
      if a.priority = p then a :: l.filter (fun r => r.priority == p)
      else l.filter (fun r => r.priority == p) := by
  induction l with
  | nil =>
      by_cases hap : a.priority = p
      · simp [insertRule, List.filter_cons, hap]
      · simp [insertRule, List.filter_cons, hap]
  | cons b rest ih =>
      unfold insertRule
      split
      · rename_i hba
        by_cases hap : a.priority = p
        · simp [List.filter_cons, hap]
        · simp [List.filter_cons, hap]
      · rename_i hba
        by_cases hap : a.priority = p
        · have hbp : ¬ b.priority = p := by omega
          simp [List.filter_cons, hap, hbp, ih]
        · by_cases hbp : b.priority = p
          · simp [List.filter_cons, hap, hbp, ih]
          · simp [List.filter_cons, hap, hbp, ih]

theorem sortRules_stable (l : List Rule) (p : Nat) :
    (sortRules l).filter (fun r => r.priority == p) =
      l.filter (fun r => r.priority == p) := by
  induction l with
  | nil => simp [sortRules]
  | cons a rest ih =>
      unfold sortRules
      rw [insertRule_filter, List.filter_cons]
      by_cases hap : a.priority = p
      · simp [hap, ih]
      · simp [hap, ih]

/-- C4: evaluation of an enabled environment with a non-empty rule list
runs the rules through the stable descending priority sort and returns
the first match's value (falling back to the default value), where the
sort is a permutation of the rules, descending in priority, and stable
(every priority class keeps its original order); and in the spec's
scenario a matching USER_SEGMENT rule at priority 10 wins over a
DEFAULT rule at priority 5, returning the segment rule's value true
rather than "A". -/
theorem priority_ordering :
    (∀ (f : Flag) (environment : String) (es : EnvSettings) (ctx : Context)
        (now : Int),
      envLookup f.environments environment = some es →
      es.enabled = true → es.rules ≠ [] →
      f.evaluate environment ctx now =
        .ok ((findFirstMatch f.key ctx now (sortRules es.rules)).getD
              (getDefaultValue f.type es)))
    ∧ (∀ rules : List Rule,
        (sortRules rules).Perm rules
        ∧ (sortRules rules).Pairwise (fun x y => y.priority ≤ x.priority)
        ∧ ∀ p : Nat, (sortRules rules).filter (fun r => r.priority == p) =
            rules.filter (fun r => r.priority == p))
    ∧ (Flag.evaluate
        { key := "feat", type := .STRING,
          environments := [("production",
            { enabled := true,
              rules := [
                { name := none, priority := 5, value := .defaultRule (.vStr "A") },
                { name := some "segment", priority := 10,
                  value := .userSegment [("plan", .vStr "pro")] }] })] }
        "production" [("plan", JSVal.vStr "pro")] 0 = .ok (.vBool true))
    ∧ JSVal.vBool true ≠ .vStr "A" := by
  refine ⟨?_, ?_, by rfl, by decide⟩
  · intro f environment es ctx now hlook hen hr
    have hne : es.rules.isEmpty = false := by
      cases hrules : es.rules with
      | nil => exact absurd hrules hr
      | cons x xs => simp [List.isEmpty]
    simp only [Flag.evaluate, hlook, hen, hne, Bool.not_true, Bool.false_eq_true,
      if_false]
    cases findFirstMatch f.key ctx now (sortRules es.rules) <;> simp [Option.getD]
  · intro rules
    exact ⟨sortRules_perm rules, sortRules_sorted rules, sortRules_stable rules⟩

/-- Witness for priority_ordering: the first component applied to the
scenario flag of the last component, whose environment exists, is
enabled and has two rules; the first match of the sorted rules is the
segment rule's value. -/
theorem priority_ordering_witness :
    Flag.evaluate
      { key := "feat", type := .STRING,
        environments := [("production",
          { enabled := true,
            rules := [
              { name := none, priority := 5, value := .defaultRule (.vStr "A") },
              { name := some "segment", priority := 10,
                value := .userSegment [("plan", .vStr "pro")] }] })] }
      "production" [("plan", JSVal.vStr "pro")] 0 =
      .ok ((findFirstMatch "feat" [("plan", JSVal.vStr "pro")] 0
            (sortRules [
              { name := none, priority := 5, value := .defaultRule (.vStr "A") },
              { name := some "segment", priority := 10,
                value := .userSegment [("plan", .vStr "pro")] }])).getD
            (getDefaultValue .STRING
              { enabled := true,
                rules := [
                  { name := none, priority := 5, value := .defaultRule (.vStr "A") },
                  { name := some "segment", priority := 10,
                    value := .userSegment [("plan", .vStr "pro")] }] })) :=
  priority_ordering.1
    { key := "feat", type := .STRING,
      environments := [("production",
        { enabled := true,
          rules := [
            { name := none, priority := 5, value := .defaultRule (.vStr "A") },
            { name := some "segment", priority := 10,
              value := .userSegment [("plan", .vStr "pro")] }] })] }
    "production"
    { enabled := true,
      rules := [
        { name := none, priority := 5, value := .defaultRule (.vStr "A") },
        { name := some "segment", priority := 10,
          value := .userSegment [("plan", .vStr "pro")] }] }
    [("plan", JSVal.vStr "pro")] 0 (by decide) (by decide) (by decide)

/-- C1: evaluate fails, with the EnvironmentNotFound error carrying the
environment and the flag key, exactly when the environment is not a key
of the flag's environments map; otherwise it returns a value, and that
value is the default value whenever the environment is disabled, its
rules list is empty or no rule matches, and the first matching rule's
value (in stable descending priority order) otherwise. -/
theorem evaluate_env_and_default (f : Flag) (environment : String)
    (ctx : Context) (now : Int) :
    ((∃ e, f.evaluate environment ctx now = .error e) ↔
      envLookup f.environments environment = none)
    ∧ ((∃ e, f.evaluate environment ctx now = .error e) →
      f.evaluate environment ctx now =
        .error (.environmentNotFound environment f.key))
    ∧ ∀ es, envLookup f.environments environment = some es →
        (∃ v, f.evaluate environment ctx now = .ok v)
        ∧ (es.enabled = false ∨ es.rules = [] ∨
            findFirstMatch f.key ctx now (sortRules es.rules) = none →
          f.evaluate environment ctx now = .ok (getDefaultValue f.type es))
        ∧ (∀ v, es.enabled = true → es.rules ≠ [] →
            findFirstMatch f.key ctx now (sortRules es.rules) = some v →
            f.evaluate environment ctx now = .ok v) := by
  cases hlook : envLookup f.environments environment with
  | none =>
      refine ⟨⟨fun _ => rfl, fun _ => ?_⟩, fun _ => ?_, fun es hes =>
        absurd hes (by simp)⟩
      · exact ⟨.environmentNotFound environment f.key, by
          simp [Flag.evaluate, hlook]⟩
      · simp [Flag.evaluate, hlook]
  | some es =>
      have hok : ∀ (P : Except EvalError JSVal → Prop),
          (∀ d, P (.ok d)) → P (f.evaluate environment ctx now) := by
        intro P hP
        simp only [Flag.evaluate, hlook]
        split
        · exact hP _
        · split
          · exact hP _
          · split
            · exact hP _
            · exact hP _
      refine ⟨⟨?_, by simp [hlook]⟩, ?_, ?_⟩
      · rintro ⟨e, he⟩
        exact absurd he (hok (fun r => ¬ r = .error e) (by simp))
      · rintro ⟨e, he⟩
        exact absurd he (hok (fun r => ¬ r = .error e) (by simp))
      · intro es₂ hes₂
        injection hes₂ with hes₂
        subst hes₂
        refine ⟨hok (fun r => ∃ v, r = .ok v) (fun d => ⟨d, rfl⟩), ?_, ?_⟩
        · intro hdef
          rcases hdef with hdis | hempty | hnomatch
          · simp [Flag.evaluate, hlook, hdis]
          · simp [Flag.evaluate, hlook, hempty]
          · simp only [Flag.evaluate, hlook, hnomatch]
            split
            · rfl
            · split <;> rfl

        · intro v hen hr hmatch
          have hne : es.rules.isEmpty = false := by
            cases hrules : es.rules with
            | nil => exact absurd hrules hr
            | cons x xs => simp [List.isEmpty]
          simp [Flag.evaluate, hlook, hen, hne, hmatch]

/-- Witness for evaluate_env_and_default: a flag whose only environment
"production" is disabled evaluates there to the default value, and a
flag without the requested environment fails. -/
theorem evaluate_env_and_default_witness :
    Flag.evaluate
      { key := "k", environments := [("production", { enabled := false })] }
      "production" [] 0 =
      .ok (getDefaultValue .BOOLEAN { enabled := false }) :=
  (((evaluate_env_and_default
      { key := "k", environments := [("production", { enabled := false })] }
      "production" [] 0).2.2 { enabled := false } (by decide)).2.1
    (Or.inl rfl))

/-- C5 counterexample: for the USER_SEGMENT rule requiring
{active: false} and the context {active: false}, every key of the
rule's value mapping is present in the context and strictly equal to
the required value, yet the rule does not match, because the code's
presence test `!context[key]` rejects falsy attribute values. -/
theorem segment_falsy_counterexample :
    ctxGet [("active", JSVal.vBool false)] "active" = some (.vBool false)
    ∧ (evaluateRule "k"
        { name := some "seg", priority := 0,
          value := .userSegment [("active", .vBool false)] }
        [("active", JSVal.vBool false)] 0).matched = false := by
  constructor
  · rfl
  · rfl

/-- C5 amended: a USER_SEGMENT rule matches exactly when every key of
the rule's value mapping is present in the context with a truthy value
strictly equal to the required value (conjunction over all keys); a
context missing any required key does not match, and the emitted value
is the boolean true; in the spec's scenario, requirements
{plan: "pro", region: "us"} against the context {plan: "pro"} with
region missing do not match. -/
theorem segment_rule_matches (entries : List (String × JSVal))
    (ctx : Context) (flagKey : String) (now : Int) (nm : Option String)
    (prio : Nat) :
    ((evaluateRule flagKey { name := nm, priority := prio, value := .userSegment entries }
        ctx now).matched = true ↔
      ∀ e ∈ entries, ∃ cv, ctxGet ctx e.1 = some cv ∧ jsTruthy cv = true ∧ cv = e.2)
    ∧ (evaluateRule flagKey { name := nm, priority := prio, value := .userSegment entries }
        ctx now).value = .vBool true
    ∧ (evaluateRule "k"
        { name := some "seg", priority := 0,
          value := .userSegment [("plan", .vStr "pro"), ("region", .vStr "us")] }
        [("plan", JSVal.vStr "pro")] 0).matched = false := by
  refine ⟨?_, rfl, by decide⟩
  simp only [evaluateRule, segmentMatches, List.all_eq_true]
  constructor
  · intro h e he
    have := h e he
    cases hcv : ctxGet ctx e.1 with
    | none => rw [hcv] at this; exact absurd this (by simp)
    | some cv =>
        rw [hcv] at this
        simp only [Bool.and_eq_true] at this
        exact ⟨cv, rfl, this.1, by
          have := this.2
          simpa [jsEq] using this⟩
  · intro h e he
    obtain ⟨cv, hcv, htr, heq⟩ := h e he
    subst heq
    rw [hcv]
    simp [htr, jsEq]

/-- C6: a SCHEDULED rule with start s and optional end e matches at
evaluation time now exactly when s ≤ now and either no end is set or
now ≤ e, its emitted value is the boolean true, and in the spec's
scenario a window from time 10100 to 10131 matches at time 10115 and
does not match at time 10201. -/
theorem scheduled_rule_matches (s : Int) (e : Option Int) (ctx : Context)
    (flagKey : String) (now : Int) (nm : Option String) (prio : Nat) :
    ((evaluateRule flagKey { name := nm, priority := prio, value := .scheduled s e }
        ctx now).matched = true ↔
      s ≤ now ∧ (e = none ∨ ∃ d, e = some d ∧ now ≤ d))
    ∧ (evaluateRule flagKey { name := nm, priority := prio, value := .scheduled s e }
        ctx now).value = .vBool true
    ∧ (evaluateRule "k"
        { name := some "sched", priority := 0,
          value := .scheduled 10100 (some 10131) } [] 10115).matched = true
    ∧ (evaluateRule "k"
        { name := some "sched", priority := 0,
          value := .scheduled 10100 (some 10131) } [] 10201).matched = false := by
  refine ⟨?_, rfl, by decide, by decide⟩
  simp only [evaluateRule, Bool.and_eq_true, decide_eq_true_eq]
  cases e with
  | none => simp
  | some d => simp

/-- C7: the default value resolver returns envSettings.value with
fallback false when the flag's type is BOOLEAN; otherwise, with a
non-empty variations list, it returns the value of the variation keyed
by defaultVariation (when that key resolves to a variation) and the
first variation's value when defaultVariation is unset; with no
variations it returns envSettings.value with fallback null; in the
spec's scenario, variations [A↦1, B↦2] with no defaultVariation give 1. -/
theorem default_value_resolution (t : FlagType) (es : EnvSettings) :
    (t = .BOOLEAN → getDefaultValue t es = es.value.getD (.vBool false))
    ∧ (t ≠ .BOOLEAN → ∀ v0 rest, es.variations = v0 :: rest →
        es.defaultVariation = none → getDefaultValue t es = v0.value)
    ∧ (t ≠ .BOOLEAN → ∀ k variation, es.defaultVariation = some k → k ≠ "" →
        es.variations.find? (fun v => v.key == k) = some variation →
        getDefaultValue t es = variation.value)
    ∧ (t ≠ .BOOLEAN → es.variations = [] →
        getDefaultValue t es = es.value.getD .vNull)
    ∧ getDefaultValue .NUMBER
        { variations := [{ key := "A", value := .vNum 1 },
                         { key := "B", value := .vNum 2 }] } = .vNum 1 := by
  refine ⟨?_, ?_, ?_, ?_, by decide⟩
  · intro ht
    subst ht
    simp [getDefaultValue]
  · intro ht v0 rest hvar hdv
    simp [getDefaultValue, ht, hvar, hdv, List.find?]
  · intro ht k variation hdv hk hfind
    cases hvar : es.variations with
    | nil => rw [hvar] at hfind; exact absurd hfind (by simp)
    | cons v0 rest =>
        rw [hvar] at hfind
        simp [getDefaultValue, ht, hvar, hdv, hk, hfind]
  · intro ht hvar
    simp [getDefaultValue, ht, hvar]

/-- Witness for default_value_resolution: for a STRING flag with
variations A↦"x", B↦"y" and defaultVariation "B", the resolver returns
"y". -/
theorem default_value_resolution_witness :
    getDefaultValue .STRING
      { variations := [{ key := "A", value := .vStr "x" },
                       { key := "B", value := .vStr "y" }],
        defaultVariation := some "B" } = .vStr "y" :=
  (default_value_resolution .STRING
    { variations := [{ key := "A", value := .vStr "x" },
                     { key := "B", value := .vStr "y" }],
      defaultVariation := some "B" }).2.2.1
    (by decide) "B" { key := "B", value := .vStr "y" } rfl (by decide)
    (by decide)

/-- C10: for a non-BOOLEAN flag whose environment has variations but
whose defaultVariation names a (non-empty) key carried by none of them,
the resolver totally returns null instead of failing.  (An empty-string
defaultVariation is falsy and is treated by the code's || exactly like
an unset one.) -/
theorem missing_default_variation (t : FlagType) (es : EnvSettings)
    (k : String) (ht : t ≠ .BOOLEAN) (hvar : es.variations ≠ [])
    (hdv : es.defaultVariation = some k) (hk : k ≠ "")
    (hnone : ∀ v ∈ es.variations, v.key ≠ k) :
    getDefaultValue t es = .vNull := by
  have hfind : es.variations.find? (fun v => v.key == k) = none := by
    rw [List.find?_eq_none]
    intro v hv
    simp [hnone v hv]
  cases hv : es.variations with
  | nil => exact absurd hv hvar
  | cons v0 rest =>
      rw [hv] at hfind
      simp [getDefaultValue, ht, hv, hdv, hk, hfind]

/-- Witness for missing_default_variation: a STRING flag with a single
variation A and defaultVariation "B" resolves to null. -/
theorem missing_default_variation_witness :
    FlagType.STRING ≠ .BOOLEAN
    ∧ getDefaultValue .STRING
        { variations := [{ key := "A", value := .vStr "x" }],
          defaultVariation := some "B" } = .vNull :=
  ⟨by decide,
   missing_default_variation .STRING
     { variations := [{ key := "A", value := .vStr "x" }],
       defaultVariation := some "B" } "B" (by decide) (by decide) rfl
     (by decide) (by decide)⟩

/-- Result of one flag in the bulk evaluation: the key/value pair of a
successful evaluation and nothing for a failing one. -/
def flagEntry (environment : String) (ctx : Context) (now : Int)
    (f : Flag) : Option (String × JSVal) :=
  (f.evaluate environment ctx now).toOption.map (fun v => (f.key, v))

theorem evaluateAllFlags_foldl (flags : List Flag) (environment : String)
    (ctx : Context) (now : Int) (acc : List (String × JSVal)) :
    flags.foldl (fun results flag =>
      match flag.evaluate environment ctx now with
      | .ok v => results ++ [(flag.key, v)]
      | .error _ => results) acc
    = acc ++ flags.filterMap (flagEntry environment ctx now) := by
  induction flags generalizing acc with
  | nil => simp
  | cons f rest ih =>
      simp only [List.foldl_cons, List.filterMap_cons]
      cases hf : f.evaluate environment ctx now with
      | ok v => rw [ih]; simp [flagEntry, hf, Except.toOption]
      | error e => rw [ih]; simp [flagEntry, hf, Except.toOption]

theorem resultsGet_not_mem (flags : List Flag) (environment : String)
    (ctx : Context) (now : Int) (k : String)
    (hk : k ∉ flags.map Flag.key) :
    resultsGet (flags.filterMap (flagEntry environment ctx now)) k = none := by
  induction flags with
  | nil => rfl
  | cons f rest ih =>
      simp only [List.map_cons, List.mem_cons] at hk
      push_neg at hk
      obtain ⟨hkf, hkrest⟩ := hk
      simp only [List.filterMap_cons]
      cases hf : f.evaluate environment ctx now with
      | ok v =>
          simp only [flagEntry, hf, Except.toOption, Option.map_some']
          simp only [resultsGet, List.find?]
          have : (f.key == k) = false := by
            simp [Ne.symm hkf]
          simp only [this]
          exact ih hkrest
      | error e =>
          simp only [flagEntry, hf, Except.toOption, Option.map_none']
          exact ih hkrest

theorem resultsGet_filterMap (flags : List Flag) (environment : String)
    (ctx : Context) (now : Int) (f : Flag)
    (hnd : (flags.map Flag.key).Nodup) (hf : f ∈ flags) :
    resultsGet (flags.filterMap (flagEntry environment ctx now)) f.key
      = (f.evaluate environment ctx now).toOption := by
  induction flags with
  | nil => cases hf
  | cons g rest ih =>
      simp only [List.map_cons, List.nodup_cons] at hnd
      obtain ⟨hgk, hnd⟩ := hnd
      rcases List.mem_cons.mp hf with hfg | hf2
      · subst hfg
        simp only [List.filterMap_cons]
        cases hg : f.evaluate environment ctx now with
        | ok v =>
            simp only [flagEntry, hg, Except.toOption, Option.map_some']
            simp [resultsGet, List.find?]
        | error e =>
            simp only [flagEntry, hg, Except.toOption, Option.map_none']
            rw [resultsGet_not_mem rest environment ctx now f.key hgk]
      · have hkne : f.key ≠ g.key := by
          intro heq
          exact hgk (heq ▸ List.mem_map_of_mem Flag.key hf2)
        simp only [List.filterMap_cons]
        cases hg : g.evaluate environment ctx now with
        | ok v =>
            simp only [flagEntry, hg, Except.toOption, Option.map_some']
            simp only [resultsGet, List.find?] at ih ⊢
            have : (g.key == f.key) = false := by simp [Ne.symm hkne]
            simp only [this]
            exact ih hnd hf2
        | error e =>
            simp only [flagEntry, hg, Except.toOption, Option.map_none']
            exact ih hnd hf2

/-- C8: bulk evaluation is total and isolates per-flag failures: its
result is exactly the list of key/value pairs of the flags whose
individual evaluation succeeds, in order; hence (with the project's
unique flag keys) any flag whose evaluation raises is absent from the
result mapping, every flag that evaluates successfully appears with its
evaluated value, and one flag's failure never prevents the others; in
the spec's scenario, [F1 valid, F2 referencing a nonexistent
environment] yields {F1 ↦ value} with F2 omitted and no error. -/
theorem bulk_isolation (flags : List Flag) (environment : String)
    (ctx : Context) (now : Int) :
    evaluateAllFlags flags environment ctx now =
      flags.filterMap (flagEntry environment ctx now)
    ∧ ((flags.map Flag.key).Nodup →
        ∀ f ∈ flags,
          ((∃ e, f.evaluate environment ctx now = .error e) →
            resultsGet (evaluateAllFlags flags environment ctx now) f.key
              = none)
          ∧ (∀ v, f.evaluate environment ctx now = .ok v →
            resultsGet (evaluateAllFlags flags environment ctx now) f.key
              = some v))
    ∧ evaluateAllFlags
        [{ key := "F1",
           environments := [("production",
             { enabled := false, value := some (.vBool true) })] },
         { key := "F2", environments := [] }] "production" [] 0
      = [("F1", .vBool true)] := by
  have hmain : evaluateAllFlags flags environment ctx now =
      flags.filterMap (flagEntry environment ctx now) :=
    evaluateAllFlags_foldl flags environment ctx now []
  refine ⟨hmain, ?_, by decide⟩
  intro hnd f hf
  have hres := resultsGet_filterMap flags environment ctx now f hnd hf
  rw [hmain]
  constructor
  · rintro ⟨e, he⟩
    rw [hres, he]
    rfl
  · intro v hv
    rw [hres, hv]
    rfl

/-- Witness for bulk_isolation: in the two-flag scenario with unique
keys, the failing flag F2 is absent from the result and the succeeding
flag F1 is present with its value. -/
theorem bulk_isolation_witness :
    resultsGet (evaluateAllFlags
      [{ key := "F1",
         environments := [("production",
           { enabled := false, value := some (.vBool true) })] },
       { key := "F2", environments := [] }] "production" [] 0) "F2"
      = none :=
  ((bulk_isolation
      [{ key := "F1",
         environments := [("production",
           { enabled := false, value := some (.vBool true) })] },
       { key := "F2", environments := [] }] "production" [] 0).2.1
    (by decide) { key := "F2", environments := [] } (by decide)).1
    ⟨.environmentNotFound "production" "F2", rfl⟩

/-- C9: evaluation is a pure function of the flag snapshot, the
environment, the context and the evaluation time: two calls with
identical arguments yield identical results, and the flag's recorded
metrics (the hidden counters updated by evaluation recording) do not
influence the returned value. -/
theorem evaluation_idempotent (f : Flag) (environment : String)
    (ctx : Context) (now : Int) (m₁ m₂ : Metrics) :
    Flag.evaluate { f with metrics := m₁ } environment ctx now
      = Flag.evaluate { f with metrics := m₂ } environment ctx now
    ∧ f.evaluate environment ctx now = f.evaluate environment ctx now :=
  ⟨rfl, rfl⟩

end FlagEval
